import Mathlib

/-!
Verification of the llmfuncs core: the chunker, the bounded-concurrency batch
scheduler with retry, the batched `filter` flow, and the batched `find` flow
with its ordered and unordered strategies.

The TypeScript sources are embedded shallowly:
* asynchronous per-batch tasks become pure functions of the batch (and, where
  the environment may behave differently on each retry, of the attempt number),
  returning `Except String _` in place of resolve/reject;
* the scheduler's result array, which is written at each batch's own index,
  is modelled both directly (`schedulerResults`) and as a sequence of
  index-addressed writes in an arbitrary completion order (`runInOrder`),
  so that independence from completion order is a theorem, not an assumption;
* the `unordered` find strategy's shared mutable state (`firstMatchIndex`,
  the `AbortController`) becomes an explicit state machine over an arbitrary
  interleaving of per-batch start/completion events;
* JavaScript `number` values that the code compares with `<= 0` are embedded
  as `Int`; list indices are `Nat` where the code guarantees non-negativity.
-/

namespace LLMFuncs

/-! ## JavaScript array primitives used by `chunk` (src/shared/batching.ts) -/

/-- Resolve one argument of JavaScript `Array.prototype.slice` against a length:
negative values count from the end and everything is clamped into `[0, len]`. -/
def jsSliceBound (len : Nat) (x : Int) : Nat :=
  if x < 0 then (((len : Int) + x).toNat) else min x.toNat len

/-- JavaScript `array.slice(start, stop)`. -/
def jsSlice {T : Type} (array : List T) (start stop : Int) : List T :=
  ((array.take (jsSliceBound array.length stop)).drop (jsSliceBound array.length start))

/-- The literal loop of `chunk` from src/shared/batching.ts:

    for (let i = 0; i < array.length; i += chunkSize) {
      result.push(array.slice(i, i + chunkSize));
    }

`i` and `chunkSize` are JavaScript numbers (here `Int`); the loop need not
terminate, so the embedding is fuel-indexed and `none` means the fuel ran out
before the loop exited.  The source performs no validation of `chunkSize`. -/
def chunkLoop {T : Type} (array : List T) (chunkSize : Int) :
    Int → List (List T) → Nat → Option (List (List T))
  | _, _, 0 => none
  | i, result, fuel + 1 =>
    if i < (array.length : Int) then
      chunkLoop array chunkSize (i + chunkSize) (result ++ [jsSlice array i (i + chunkSize)]) fuel
    else
      some result

/-- Fuel-driven worker for `chunk`. -/
def chunkAux {T : Type} (chunkSize : Nat) : Nat → List T → List (List T)
  | _, [] => []
  | 0, _ :: _ => []
  | fuel + 1, x :: rest =>
    (x :: rest).take chunkSize :: chunkAux chunkSize fuel ((x :: rest).drop chunkSize)

/-- `chunk array chunkSize` for a positive chunk size: the terminating
abstraction of `chunkLoop`, used by `filter` and `find` after their option
validation has ensured `maxItemsPerBatch > 0`.  The recursion is driven by a
fuel argument that starts at `array.length`, which suffices because each step
drops at least one element; `chunkLoop_agrees` below proves it agrees with
the literal loop for every positive size.  For `chunkSize = 0` this
abstraction returns `[]` while the real loop diverges (proved in the C9
theorem). -/
def chunk {T : Type} (array : List T) (chunkSize : Nat) : List (List T) :=
  if chunkSize = 0 then [] else chunkAux chunkSize array.length array

/-- The claim "chunk fails with InvalidArgument if size ≤ 0" is refuted by the
loop never exiting: no fuel suffices for `chunkLoop` to return. -/
def chunkNeverTerminates {T : Type} (array : List T) (chunkSize : Int) : Prop :=
  ∀ fuel, chunkLoop array chunkSize 0 [] fuel = none

/-! ## The bounded-concurrency scheduler (src/shared/batching.ts) -/

/-- `BatchResult` from src/shared/batching.ts. -/
structure BatchResult (γ : Type) where
  success : Bool
  data : Option γ
  error : Option String
  retries : Option Nat
deriving DecidableEq

/-- `processAndTrack` from `runBatchesInParallel`: run `processBatchFn` on the
batch; on success record `{ success: true, data }`, on an exception retry
while `retryCount < maxRetries`, else record
`{ success: false, error, retries: retryCount }`.

The task `f` takes the batch, the batch index, and (because the environment
may fail on one attempt and succeed on the next) the attempt number; the
source passes only the first two to `processBatchFn`. -/
def processAndTrackGo {β γ : Type} (f : β → Nat → Nat → Except String γ)
    (batch : β) (batchIndex : Nat) : Nat → Nat → BatchResult γ
  | retryCount, remaining + 1 =>
    match f batch batchIndex retryCount with
    | .ok r => { success := true, data := some r, error := none, retries := none }
    | .error _ => processAndTrackGo f batch batchIndex (retryCount + 1) remaining
  | retryCount, 0 =>
    match f batch batchIndex retryCount with
    | .ok r => { success := true, data := some r, error := none, retries := none }
    | .error e => { success := false, data := none, error := some e, retries := some retryCount }

/-- Entry point matching the source's call `processAndTrack(batchIndex)`:
`remaining = maxRetries - retryCount` makes the guard `retryCount < maxRetries`
the same as `remaining ≠ 0` at every recursive call. -/
def processAndTrack {β γ : Type} (f : β → Nat → Nat → Except String γ)
    (batch : β) (batchIndex maxRetries retryCount : Nat) : BatchResult γ :=
  processAndTrackGo f batch batchIndex retryCount (maxRetries - retryCount)

/-- Ghost observer: how many times `processAndTrackGo` invokes the task. -/
def processAndTrackGoInvocations {β γ : Type} (f : β → Nat → Nat → Except String γ)
    (batch : β) (batchIndex : Nat) : Nat → Nat → Nat
  | retryCount, remaining + 1 =>
    match f batch batchIndex retryCount with
    | .ok _ => 1
    | .error _ => 1 + processAndTrackGoInvocations f batch batchIndex (retryCount + 1) remaining
  | retryCount, 0 => 1

/-- Ghost observer: how many times `processAndTrack` invokes the task. -/
def processAndTrackInvocations {β γ : Type} (f : β → Nat → Nat → Except String γ)
    (batch : β) (batchIndex maxRetries retryCount : Nat) : Nat :=
  processAndTrackGoInvocations f batch batchIndex retryCount (maxRetries - retryCount)

/-- The scheduler's internal `results` array: one `BatchResult` per batch,
stored at the batch's own index (`results[batchIndex] = ...`). -/
def schedulerResults {β γ : Type} (f : β → Nat → Nat → Except String γ)
    (batches : List β) (maxRetries : Nat) : List (BatchResult γ) :=
  batches.enum.map (fun p => processAndTrack f p.2 p.1 maxRetries 0)

/-- The same `results` array built by index-addressed writes performed in an
arbitrary completion order: `order` lists the `(batchIndex, batch)` pairs in
the order their executions finish, and each one stores its outcome at its own
index of a pre-sized array (`new Array(batches.length)`, modelled with
`none` for the holes). -/
def runInOrder {β γ : Type} (f : β → Nat → Nat → Except String γ)
    (maxRetries : Nat) (order : List (Nat × β)) (n : Nat) :
    List (Option (BatchResult γ)) :=
  order.foldl
    (fun slots p => slots.set p.1 (some (processAndTrack f p.2 p.1 maxRetries 0)))
    (List.replicate n none)

/-- `runBatchesInParallel` from src/shared/batching.ts.  The concurrency
ceiling and the inter-launch delay only affect timing: every batch is
launched exactly once and written at its own index, so they do not appear in
the value.  The return statement filters the results down to the successful
ones and maps out their `data` (the `undefined` check cannot fire because a
successful result always carries `data`). -/
def runBatchesInParallel {β γ : Type} (f : β → Nat → Nat → Except String γ)
    (batches : List β) (maxConcurrentBatches delayBetweenStartsMs : Int)
    (maxRetries : Nat) : List γ :=
  (((schedulerResults f batches maxRetries).filter (fun r => r.success)).filterMap
    (fun r => r.data))

/-! ## Configuration models (src/shared/config.ts, option merging in
src/funcs/filter.ts and find.ts)

The provider is carried separately (as an optional function argument of
`filter`/`find`), so option records only keep the numeric fields; a missing
record or field is `none`, mirroring TypeScript `undefined`. -/

/-- `batching` options: `{ maxItemsPerBatch?: number }`. -/
structure BatchingOptions where
  maxItemsPerBatch : Option Int
deriving DecidableEq

/-- `parallelism` options: `{ maxConcurrentBatches?, delayBetweenStartsMs? }`. -/
structure ParallelismOptions where
  maxConcurrentBatches : Option Int
  delayBetweenStartsMs : Option Int
deriving DecidableEq

/-- The numeric part of the global `LLMFuncsConfig`. -/
structure GlobalConfig where
  batching : Option BatchingOptions
  parallelism : Option ParallelismOptions
deriving DecidableEq

/-- Per-call `FilterOptions` minus the provider. -/
structure FilterOptions where
  batching : Option BatchingOptions
  parallelism : Option ParallelismOptions
deriving DecidableEq

/-- Per-call `FindOptions` minus the provider.  `strategy` is kept as a raw
string because the source validates it with
`["ordered", "unordered"].includes(...)` at run time. -/
structure FindOptions where
  batching : Option BatchingOptions
  parallelism : Option ParallelismOptions
  strategy : Option String
deriving DecidableEq

/-- Fully resolved numeric options shared by filter and find. -/
structure EffectiveOptions where
  maxItemsPerBatch : Int
  maxConcurrentBatches : Int
  delayBetweenStartsMs : Int
deriving DecidableEq

/-- Fully resolved find options. -/
structure EffectiveFindOptions where
  maxItemsPerBatch : Int
  maxConcurrentBatches : Int
  delayBetweenStartsMs : Int
  strategy : String
deriving DecidableEq

/-- `getEffectiveOptions` from src/funcs/filter.ts.

The `deepMerge` helper (src/shared/utils.ts) copies, for every key present in
its *source* argument, the source's value over the target's (recursing into
nested objects, skipping only `undefined` source values).  Both `deepMerge`
calls in this function pass a source record whose every leaf is defined, so
each call replaces all three numeric leaves with the source's values:

* the first call (source built from the global config) writes
  `config.batching?.maxItemsPerBatch ?? 50` etc. — identical to `defaults`;
* the second call (source built from the per-call options) writes
  `options.batching.maxItemsPerBatch ?? defaults...` etc., so per-call
  values win here, with `??` keeping explicit `0`s.

The validations then run in source order. -/
def filterGetEffectiveOptions (config : GlobalConfig) (options : Option FilterOptions) :
    Except String EffectiveOptions :=
  let defaults : EffectiveOptions :=
    { maxItemsPerBatch := ((config.batching.bind (fun b => b.maxItemsPerBatch)).getD 50)
      maxConcurrentBatches := ((config.parallelism.bind (fun p => p.maxConcurrentBatches)).getD 5)
      delayBetweenStartsMs := ((config.parallelism.bind (fun p => p.delayBetweenStartsMs)).getD 0) }
  -- `if (config.batching || config.parallelism) merged = deepMerge(merged, {...config-derived})`
  -- the config-derived source equals `defaults` leaf for leaf, so `merged` is unchanged
  let merged : EffectiveOptions := defaults
  -- `if (options?.batching || options?.parallelism) merged = deepMerge(merged, {...options-derived})`
  let merged : EffectiveOptions :=
    match options with
    | none => merged
    | some opts =>
      if opts.batching.isSome ∨ opts.parallelism.isSome then
        { maxItemsPerBatch :=
            match opts.batching with
            | some b => b.maxItemsPerBatch.getD defaults.maxItemsPerBatch
            | none => defaults.maxItemsPerBatch
          maxConcurrentBatches :=
            match opts.parallelism with
            | some p => p.maxConcurrentBatches.getD defaults.maxConcurrentBatches
            | none => defaults.maxConcurrentBatches
          delayBetweenStartsMs :=
            match opts.parallelism with
            | some p => p.delayBetweenStartsMs.getD defaults.delayBetweenStartsMs
            | none => defaults.delayBetweenStartsMs }
      else merged
  if merged.maxItemsPerBatch ≤ 0 then
    .error "maxItemsPerBatch must be greater than 0"
  else if merged.maxConcurrentBatches ≤ 0 then
    .error "maxConcurrentBatches must be greater than 0"
  else if merged.delayBetweenStartsMs < 0 then
    .error "delayBetweenStartsMs must be non-negative"
  else
    .ok merged

/-! ## The filter flow (src/funcs/filter.ts)

The provider collaborator is modelled as a pure function from the batch's
item list to either a thrown error or the parsed index list
(`parsedOutput.items.map(item => item.index)`); the prompt construction and
response parsing in `filterSingleBatch` only shape that list. -/

/-- `{ item, originalIndex }` pairs produced before chunking. -/
structure IndexedItem (T : Type) where
  item : T
  originalIndex : Nat
deriving DecidableEq

/-- `filterByIndices` from src/funcs/filter.ts:
`unfiltered.filter((_, index) => indices.includes(index))`. -/
def filterByIndices {T : Type} (unfiltered : List T) (indices : List Int) : List T :=
  (unfiltered.enum.filter (fun p => indices.contains ((p.1 : Int)))).map (fun p => p.2)

/-- `filterSingleBatch`: one provider call over `items`, then
`filterByIndices(items, parsedOutput.items.map(i => i.index))`.  Note there is
no empty-input guard: the provider is invoked even for `items = []`. -/
def filterSingleBatch {T : Type} (items : List T)
    (provider : List T → Except String (List Int)) : Except String (List T) :=
  match provider items with
  | .error e => .error e
  | .ok indices => .ok (filterByIndices items indices)

/-- The `processBatch` closure of the batched `filter`: run `filterSingleBatch`
on the batch's items and re-identify the matches by membership
(`filteredItems.includes(item)`, i.e. equality with a returned item) to map
them back to original indices.  Every thrown error is caught and turned into
`[]`, so this function is total and the scheduler above it never sees a
failure. -/
def filterProcessBatch {T : Type} [DecidableEq T]
    (provider : List T → Except String (List Int))
    (batch : List (IndexedItem T)) : List Nat :=
  match filterSingleBatch (batch.map (fun p => p.item)) provider with
  | .error _ => []
  | .ok filteredItems =>
    ((batch.filter (fun p => decide (p.item ∈ filteredItems))).map
      (fun p => p.originalIndex))

/-- Worker for `jsSetDedup`: `seen` is the set built so far. -/
def jsSetDedupGo {α : Type} [DecidableEq α] (seen : List α) : List α → List α
  | [] => []
  | a :: rest =>
    if a ∈ seen then jsSetDedupGo seen rest else a :: jsSetDedupGo (a :: seen) rest

/-- `[...new Set(list)]`: deduplication keeping first occurrences. -/
def jsSetDedup {α : Type} [DecidableEq α] (l : List α) : List α :=
  jsSetDedupGo [] l

/-- `filter` from src/funcs/filter.ts.  `optProvider`/`configProvider` model
`options?.provider` and the global config's provider. -/
def filter {T : Type} [DecidableEq T] (unfiltered : List T)
    (optProvider configProvider : Option (List T → Except String (List Int)))
    (options : Option FilterOptions) (config : GlobalConfig) :
    Except String (List T) :=
  match filterGetEffectiveOptions config options with
  | .error e => .error e
  | .ok effective =>
    match optProvider <|> configProvider with
    | none => .error "Provider is required. Set it globally via llmfuncsConfig or pass it in options."
    | some provider =>
      -- `if (!batching.maxItemsPerBatch || batching.maxItemsPerBatch >= unfiltered.length)`
      if effective.maxItemsPerBatch = 0 ∨ (unfiltered.length : Int) ≤ effective.maxItemsPerBatch then
        filterSingleBatch unfiltered provider
      else
        let itemsWithIndices : List (IndexedItem T) :=
          unfiltered.enum.map (fun p => { item := p.2, originalIndex := p.1 })
        let batches := chunk itemsWithIndices effective.maxItemsPerBatch.toNat
        let resultsPerBatch :=
          runBatchesInParallel (fun b _ _ => .ok (filterProcessBatch provider b))
            batches effective.maxConcurrentBatches effective.delayBetweenStartsMs 3
        let allMatchingIndices := resultsPerBatch.flatten
        let uniqueMatchingIndices := jsSetDedup allMatchingIndices
        .ok (filterByIndices unfiltered (uniqueMatchingIndices.map (fun n => (n : Int))))

/-- Ghost observer: how many times `filter` invokes the provider.  The batched
path performs one provider call per batch: `filterProcessBatch` never throws,
so the scheduler runs each batch exactly once. -/
def filterInvocationCount {T : Type} [DecidableEq T] (unfiltered : List T)
    (optProvider configProvider : Option (List T → Except String (List Int)))
    (options : Option FilterOptions) (config : GlobalConfig) : Nat :=
  match filterGetEffectiveOptions config options with
  | .error _ => 0
  | .ok effective =>
    match optProvider <|> configProvider with
    | none => 0
    | some _ =>
      if effective.maxItemsPerBatch = 0 ∨ (unfiltered.length : Int) ≤ effective.maxItemsPerBatch then
        1
      else
        (chunk (unfiltered.enum.map (fun p => ({ item := p.2, originalIndex := p.1 } : IndexedItem T)))
          effective.maxItemsPerBatch.toNat).length

/-! ## The find flow (find.ts, quoted in full in src/README.md)

The provider is modelled as a pure function from the batch's item list to
either a thrown error or the parsed `foundIndex` (`-1` for "no match"; the
parse fallbacks in `findSingleBatch` only determine this number and never
throw, so provider-side throwing is the only error channel). -/

/-- `getEffectiveOptions` from find.ts.  The source computes

    mergedOptions = deepMerge({ provider: null, strategy, batching, parallelism }, defaults)

with `defaults` as the *source* argument of `deepMerge`.  Since every leaf of
`defaults` is defined (`config value ?? hardcoded default`, and
`strategy: "unordered"`), `deepMerge` overwrites every numeric leaf and the
strategy with the `defaults` values: the per-call options (selected into the
target with the truthiness operator `?:`, so an explicit `0` would already
fall back to the default) are discarded entirely.  The validations therefore
only ever run against the config-or-hardcoded defaults. -/
def findGetEffectiveOptions (config : GlobalConfig) (options : Option FindOptions) :
    Except String EffectiveFindOptions :=
  let defaults : EffectiveFindOptions :=
    { maxItemsPerBatch := ((config.batching.bind (fun b => b.maxItemsPerBatch)).getD 50)
      maxConcurrentBatches := ((config.parallelism.bind (fun p => p.maxConcurrentBatches)).getD 5)
      delayBetweenStartsMs := ((config.parallelism.bind (fun p => p.delayBetweenStartsMs)).getD 0)
      strategy := "unordered" }
  -- the deepMerge target, built from the per-call options with `x ? x : default`
  -- (truthy selection: a present, non-zero number; for strategy `?? default`)
  let target : EffectiveFindOptions :=
    { maxItemsPerBatch :=
        match (options.bind (fun o => o.batching)).bind (fun b => b.maxItemsPerBatch) with
        | some v => if v ≠ 0 then v else defaults.maxItemsPerBatch
        | none => defaults.maxItemsPerBatch
      maxConcurrentBatches :=
        match (options.bind (fun o => o.parallelism)).bind (fun p => p.maxConcurrentBatches) with
        | some v => if v ≠ 0 then v else defaults.maxConcurrentBatches
        | none => defaults.maxConcurrentBatches
      delayBetweenStartsMs :=
        match (options.bind (fun o => o.parallelism)).bind (fun p => p.delayBetweenStartsMs) with
        | some v => if v ≠ 0 then v else defaults.delayBetweenStartsMs
        | none => defaults.delayBetweenStartsMs
      strategy := (options.bind (fun o => o.strategy)).getD defaults.strategy }
  -- mergedOptions = deepMerge(target, defaults): every leaf of the source
  -- `defaults` is defined, so the result is `defaults` (the target is unused)
  let mergedOptions : EffectiveFindOptions :=
    { maxItemsPerBatch := defaults.maxItemsPerBatch
      maxConcurrentBatches := defaults.maxConcurrentBatches
      delayBetweenStartsMs := defaults.delayBetweenStartsMs
      strategy := defaults.strategy }
  -- effective = { ...mergedOptions ?? defaults }, then the validations
  let effective : EffectiveFindOptions := mergedOptions
  if effective.maxItemsPerBatch ≤ 0 then
    .error "maxItemsPerBatch must be greater than 0"
  else if effective.maxConcurrentBatches ≤ 0 then
    .error "maxConcurrentBatches must be greater than 0"
  else if effective.delayBetweenStartsMs < 0 then
    .error "delayBetweenStartsMs must be non-negative"
  else if ¬(effective.strategy = "ordered" ∨ effective.strategy = "unordered") then
    .error "strategy must be either ordered or unordered"
  else
    .ok effective

/-- `findSingleBatch` from find.ts: empty input short-circuits to "not found"
without a provider call; otherwise one provider call yields `foundIndex`, and
`items[foundIndex]` is returned only when `foundIndex !== -1 && foundIndex >= 0
&& foundIndex < items.length`.  (The abort-signal check before the call is
handled by the callers' state machine below; on the paths that pass no signal
it never fires.) -/
def findSingleBatch {T : Type} (items : List T)
    (provider : List T → Except String Int) : Except String (Option T) :=
  if items.length = 0 then
    .ok none
  else
    match provider items with
    | .error e => .error e
    | .ok foundIndex =>
      .ok (if foundIndex ≠ -1 ∧ 0 ≤ foundIndex ∧ foundIndex < (items.length : Int) then
             items.get? foundIndex.toNat
           else
             none)

/-- The shared core of `processBatchOrdered` / `processBatchUnordered`: run
`findSingleBatch` on the batch's items and, when it finds an item, re-derive
its position with `batchItems.findIndex(item => item === foundItem)` and map
it to the original index.  `.error` is the case where `findSingleBatch`
threw; the callers catch it. -/
def findDecision {T : Type} [DecidableEq T] (provider : List T → Except String Int)
    (batch : List (IndexedItem T)) : Except String (Option Nat) :=
  let batchItems := batch.map (fun p => p.item)
  let originalIndices := batch.map (fun p => p.originalIndex)
  match findSingleBatch batchItems provider with
  | .error e => .error e
  | .ok none => .ok none
  | .ok (some foundItem) =>
    match batchItems.findIdx? (fun item => item = foundItem) with
    | some indexInBatch => .ok (some (originalIndices.getD indexInBatch 0))
    | none => .ok none

/-- `processBatchOrdered` from find.ts: the decision with every thrown error
caught and treated as "no match" (`-1`). -/
def processBatchOrdered {T : Type} [DecidableEq T] (provider : List T → Except String Int)
    (batch : List (IndexedItem T)) : Int :=
  match findDecision provider batch with
  | .error _ => -1
  | .ok none => -1
  | .ok (some originalIndex) => (originalIndex : Int)

/-- `Math.min(...list)` for the nonempty lists it is applied to. -/
def jsMathMin : List Int → Int
  | [] => 0
  | a :: rest => rest.foldl min a

/-- The `ordered` strategy branch of `find`: run all batches through the
scheduler (no batch ever fails, since `processBatchOrdered` catches), keep
the non-`-1` original indices, and answer with the item at their minimum. -/
def findOrderedRun {T : Type} [DecidableEq T] (provider : List T → Except String Int)
    (items : List T) (batches : List (List (IndexedItem T)))
    (maxConcurrentBatches delayBetweenStartsMs : Int) : Option T :=
  let resultsPerBatch :=
    runBatchesInParallel (fun b _ _ => .ok (processBatchOrdered provider b))
      batches maxConcurrentBatches delayBetweenStartsMs 3
  let foundIndices := resultsPerBatch.filter (fun idx => idx ≠ -1)
  if foundIndices.isEmpty then
    none
  else
    items.get? (jsMathMin foundIndices).toNat

/-! ### The `unordered` strategy as a state machine

JavaScript is single-threaded, so one run of the unordered strategy is a
sequence of atomic steps.  Each batch contributes a `start` step (the
synchronous prefix of `processBatchUnordered`: the skip check against the
abort signal and the shared `firstMatchIndex`, then — if not skipped — the
dispatch of the provider call) and a `complete` step (the continuation after
`await findSingleBatch`: the re-check of the signal, then the
compare-and-set claim of `firstMatchIndex` plus `abortController.abort()`).
The scheduler's bounded concurrency and launch delays only constrain which
event sequences can occur; the theorems quantify over all of them. -/

/-- One scheduling event of the unordered run. -/
inductive UEvent where
  | start (batchIndex : Nat)
  | complete (batchIndex : Nat)
deriving DecidableEq

/-- The state shared by the unordered run's batch tasks, plus a ghost counter
of provider invocations. -/
structure UState where
  firstMatchIndex : Int
  aborted : Bool
  invocations : Nat
deriving DecidableEq

/-- One step of the unordered run.  `start i` models the synchronous prefix of
`processBatchUnordered` (skip when `signal.aborted || firstMatchIndex !== -1`;
`findSingleBatch` returns without a provider call for an empty batch);
`complete i` models the continuation after the await (`if (signal.aborted)
return -1`, then the claim `if (firstMatchIndex === -1) { firstMatchIndex =
originalIndex; abortController.abort(); }`). -/
def ustep {T : Type} [DecidableEq T] (provider : List T → Except String Int)
    (batches : List (List (IndexedItem T))) (s : UState) : UEvent → UState
  | .start i =>
    if s.aborted ∨ s.firstMatchIndex ≠ -1 then
      s
    else if (batches.getD i []).isEmpty then
      s
    else
      { s with invocations := s.invocations + 1 }
  | .complete i =>
    if s.aborted then
      s
    else
      match findDecision provider (batches.getD i []) with
      | .error _ => s
      | .ok none => s
      | .ok (some originalIndex) =>
        if s.firstMatchIndex = -1 then
          { s with firstMatchIndex := (originalIndex : Int), aborted := true }
        else
          s

/-- Run the unordered strategy's shared state over a sequence of events. -/
def runU {T : Type} [DecidableEq T] (provider : List T → Except String Int)
    (batches : List (List (IndexedItem T))) (events : List UEvent) : UState :=
  events.foldl (ustep provider batches) { firstMatchIndex := -1, aborted := false, invocations := 0 }

/-- The `unordered` strategy branch of `find`: after all events have played
out, answer `items[firstMatchIndex]` if some batch claimed a match. -/
def findUnorderedRun {T : Type} [DecidableEq T] (provider : List T → Except String Int)
    (items : List T) (batches : List (List (IndexedItem T))) (events : List UEvent) : Option T :=
  let final := runU provider batches events
  if final.firstMatchIndex ≠ -1 then
    items.get? final.firstMatchIndex.toNat
  else
    none

/-- The batches a find (or filter) run builds: items tagged with their
original index, then chunked. -/
def findBatches {T : Type} (items : List T) (maxItemsPerBatch : Nat) :
    List (List (IndexedItem T)) :=
  chunk (items.enum.map (fun p => { item := p.2, originalIndex := p.1 })) maxItemsPerBatch

/-- `find` from find.ts.  `events` is the interleaving the unordered branch's
batch tasks happen to execute in (unused by the other paths). -/
def find {T : Type} [DecidableEq T] (items : List T)
    (optProvider configProvider : Option (List T → Except String Int))
    (options : Option FindOptions) (config : GlobalConfig) (events : List UEvent) :
    Except String (Option T) :=
  if items.length = 0 then
    .ok none
  else
    match findGetEffectiveOptions config options with
    | .error e => .error e
    | .ok effective =>
      match optProvider <|> configProvider with
      | none => .error "Provider is required. Set it globally via llmfuncsConfig or pass it in options."
      | some provider =>
        -- `if (!batching.maxItemsPerBatch || batching.maxItemsPerBatch >= items.length)`
        if effective.maxItemsPerBatch = 0 ∨ (items.length : Int) ≤ effective.maxItemsPerBatch then
          findSingleBatch items provider
        else
          let batches := findBatches items effective.maxItemsPerBatch.toNat
          if effective.strategy = "ordered" then
            .ok (findOrderedRun provider items batches
              effective.maxConcurrentBatches effective.delayBetweenStartsMs)
          else
            .ok (findUnorderedRun provider items batches events)

/-- Ghost observer: how many times `find` invokes the provider. -/
def findInvocationCount {T : Type} [DecidableEq T] (items : List T)
    (optProvider configProvider : Option (List T → Except String Int))
    (options : Option FindOptions) (config : GlobalConfig) (events : List UEvent) : Nat :=
  if items.length = 0 then
    0
  else
    match findGetEffectiveOptions config options with
    | .error _ => 0
    | .ok effective =>
      match optProvider <|> configProvider with
      | none => 0
      | some provider =>
        if effective.maxItemsPerBatch = 0 ∨ (items.length : Int) ≤ effective.maxItemsPerBatch then
          1
        else
          let batches := findBatches items effective.maxItemsPerBatch.toNat
          if effective.strategy = "ordered" then
            batches.length
          else
            (runU provider batches events).invocations

/-! ## Concrete instances used in the closed theorems -/

/-- Task that always fails for batch 0 and succeeds for the others. -/
def taskFailBatch0 : Nat → Nat → Nat → Except String Nat :=
  fun b i _ => if i = 0 then .error "boom" else .ok b

/-- Task that fails on every attempt. -/
def taskAlwaysFail : Nat → Nat → Nat → Except String Nat :=
  fun _ _ _ => .error "boom"

/-- Filter provider that reports local index 0 of every batch. -/
def providerIdx0 : List Nat → Except String (List Int) := fun _ => .ok [0]

/-- Filter provider whose execute call always throws. -/
def providerThrow : List Nat → Except String (List Int) := fun _ => .error "LLM down"

/-- Find provider that reports local index 0 of every batch. -/
def finderIdx0 : List Nat → Except String Int := fun _ => .ok 0

/-- Find provider whose execute call always throws. -/
def finderThrow : List Nat → Except String Int := fun _ => .error "LLM down"

/-- A two-element batch whose two positions hold the identical value. -/
def batchDup : List (IndexedItem Nat) :=
  [{ item := 7, originalIndex := 0 }, { item := 7, originalIndex := 1 }]

/-- An arbitrary two-element batch. -/
def batchTwo : List (IndexedItem Nat) :=
  [{ item := 1, originalIndex := 0 }, { item := 2, originalIndex := 1 }]

/-- Empty global config: every value falls back to the hardcoded default. -/
def emptyConfig : GlobalConfig := { batching := none, parallelism := none }

/-- Global config pinning batch size 1 and concurrency 2. -/
def configBatch1 : GlobalConfig :=
  { batching := some { maxItemsPerBatch := some 1 }
    parallelism := some { maxConcurrentBatches := some 2, delayBetweenStartsMs := some 0 } }

/-- Per-call find options requesting the ordered strategy. -/
def optionsOrdered : FindOptions :=
  { batching := none, parallelism := none, strategy := some "ordered" }

/-- Completion schedule where batch 1 finishes before batch 0. -/
def scheduleB1First : List UEvent := [.start 0, .start 1, .complete 1, .complete 0]

/-! ## Lemmas about the chunker -/

theorem chunkAux_nil {T : Type} (size fuel : Nat) : chunkAux (T := T) size fuel [] = [] := by
  cases fuel <;> rfl

theorem chunkAux_fuel_irrel {T : Type} (size : Nat) (hs : 0 < size) :
    ∀ (f₁ : Nat) (f₂ : Nat) (array : List T), array.length ≤ f₁ → array.length ≤ f₂ →
      chunkAux size f₁ array = chunkAux size f₂ array := by
  intro f₁
  induction f₁ with
  | zero =>
    intro f₂ array h₁ _
    have : array = [] := List.eq_nil_of_length_eq_zero (Nat.le_zero.mp h₁)
    subst this
    rw [chunkAux_nil, chunkAux_nil]
  | succ f ih =>
    intro f₂ array h₁ h₂
    match array, f₂ with
    | [], _ => rw [chunkAux_nil, chunkAux_nil]
    | x :: rest, 0 => simp at h₂
    | x :: rest, g + 1 =>
      simp only [chunkAux]
      rw [ih g ((x :: rest).drop size)]
      · simp only [List.length_drop, List.length_cons] at *
        omega
      · simp only [List.length_drop, List.length_cons] at *
        omega

theorem chunkAux_flatten {T : Type} (size : Nat) (hs : 0 < size) :
    ∀ (fuel : Nat) (array : List T), array.length ≤ fuel →
      (chunkAux size fuel array).flatten = array := by
  intro fuel
  induction fuel with
  | zero =>
    intro array h
    have : array = [] := List.eq_nil_of_length_eq_zero (Nat.le_zero.mp h)
    subst this
    rfl
  | succ f ih =>
    intro array h
    match array with
    | [] => rfl
    | x :: rest =>
      simp only [chunkAux, List.flatten_cons]
      rw [ih ((x :: rest).drop size)]
      · exact List.take_append_drop size (x :: rest)
      · simp only [List.length_drop, List.length_cons] at *
        omega

theorem chunkAux_mem_length_le {T : Type} (size : Nat) :
    ∀ (fuel : Nat) (array : List T) (b : List T), b ∈ chunkAux size fuel array →
      b.length ≤ size := by
  intro fuel
  induction fuel with
  | zero =>
    intro array b hb
    cases array <;> simp [chunkAux] at hb
  | succ f ih =>
    intro array b hb
    match array with
    | [] => simp [chunkAux] at hb
    | x :: rest =>
      simp only [chunkAux, List.mem_cons] at hb
      rcases hb with hb | hb
      · subst hb
        simpa using Nat.min_le_left size (x :: rest).length
      · exact ih _ _ hb

theorem chunk_flatten {T : Type} (array : List T) (size : Nat) (hs : 0 < size) :
    (chunk array size).flatten = array := by
  unfold chunk
  rw [if_neg (by omega)]
  exact chunkAux_flatten size hs array.length array le_rfl

theorem chunk_mem_length_le {T : Type} (array : List T) (size : Nat) (b : List T)
    (hb : b ∈ chunk array size) : b.length ≤ size := by
  unfold chunk at hb
  by_cases h : size = 0
  · rw [if_pos h] at hb
    simp at hb
  · rw [if_neg h] at hb
    exact chunkAux_mem_length_le size array.length array b hb

/-- For a non-positive chunk size and a nonempty array, the literal loop never
exits: the index only ever moves left from `0`, so the guard
`i < array.length` stays true. -/
theorem chunkLoop_diverges {T : Type} (array : List T) (size : Int)
    (hs : size ≤ 0) (hne : array ≠ []) :
    ∀ (fuel : Nat) (i : Int), i ≤ 0 → ∀ (acc : List (List T)),
      chunkLoop array size i acc fuel = none := by
  intro fuel
  induction fuel with
  | zero => intro i _ acc; rfl
  | succ f ih =>
    intro i hi acc
    have hlen : 0 < array.length := List.length_pos.mpr hne
    simp only [chunkLoop]
    rw [if_pos (by exact_mod_cast lt_of_le_of_lt hi (by exact_mod_cast hlen))]
    exact ih (i + size) (by omega) _

/-- For a positive chunk size, the literal loop exits with exactly the batches
of `chunk` once the fuel exceeds the array length. -/
theorem chunkLoop_agrees {T : Type} (array : List T) (size : Nat) (hs : 0 < size) :
    chunkLoop array (size : Int) 0 [] (array.length + 1) = some (chunk array size) := by
  have main : ∀ (fuel k : Nat) (acc : List (List T)), array.length - k < fuel →
      chunkLoop array (size : Int) (k : Int) acc fuel
        = some (acc ++ chunkAux size (array.length - k) (array.drop k)) := by
    intro fuel
    induction fuel with
    | zero => intro k acc h; omega
    | succ f ih =>
      intro k acc h
      by_cases hk : k < array.length
      · simp only [chunkLoop]
        rw [if_pos (by exact_mod_cast hk)]
        have hcast : (k : Int) + (size : Int) = ((k + size : Nat) : Int) := by push_cast; ring
        rw [hcast, ih (k + size) _ (by omega)]
        congr 1
        -- the slice pushed by the loop is the head batch of the abstraction
        have hslice : jsSlice array (k : Int) ((k + size : Nat) : Int)
            = (array.drop k).take size := by
          unfold jsSlice jsSliceBound
          rw [if_neg (by omega), if_neg (by omega)]
          have h1 : ((k + size : Nat) : Int).toNat = k + size := by omega
          have h2 : ((k : Nat) : Int).toNat = k := by omega
          rw [h1, h2, Nat.min_comm k array.length, Nat.min_eq_right (le_of_lt hk)]
          rw [List.drop_take]
          by_cases hfit : k + size ≤ array.length
          · rw [Nat.min_eq_left hfit]
            congr 1
            omega
          · rw [Nat.min_eq_right (by omega)]
            have hlen : (array.drop k).length ≤ array.length - k := by
              simp [List.length_drop]
            rw [List.take_of_length_le (by omega), List.take_of_length_le (by simp; omega)]
        rw [hslice]
        -- unfold one step of the abstraction on the nonempty `array.drop k`
        obtain ⟨y, rest, hdrop⟩ : ∃ y rest, array.drop k = y :: rest := by
          cases hd : array.drop k with
          | nil =>
            have := List.length_drop k array
            rw [hd] at this
            simp at this
            omega
          | cons y rest => exact ⟨y, rest, rfl⟩
        have hfuel : array.length - k = (array.length - k - 1) + 1 := by omega
        rw [hdrop, hfuel]
        simp only [chunkAux, List.append_assoc, List.singleton_append]
        congr 1
        rw [← hdrop, List.drop_drop]
        congr 1
        apply chunkAux_fuel_irrel size hs <;> simp only [List.length_drop] <;> omega
      · simp only [chunkLoop]
        rw [if_neg (by exact_mod_cast hk)]
        have h0 : array.length - k = 0 := by omega
        have hd : array.drop k = [] := List.drop_eq_nil_of_le (by omega)
        rw [h0, hd, chunkAux_nil, List.append_nil]
  have := main (array.length + 1) 0 [] (by omega)
  simpa [chunk, Nat.pos_iff_ne_zero.mp hs] using this

/-! ## Lemmas about the scheduler -/

theorem mem_enum_iff_getElem? {α : Type} {l : List α} {j : Nat} {b : α} :
    (j, b) ∈ l.enum ↔ l[j]? = some b := by
  constructor
  · intro h
    obtain ⟨n, hn⟩ := List.mem_iff_get?.mp h
    rw [List.get?_eq_getElem?, List.getElem?_enum] at hn
    cases hl : l[n]? with
    | none => rw [hl] at hn; exact absurd hn (by simp)
    | some a =>
      rw [hl] at hn
      simp at hn
      rcases hn with ⟨rfl, rfl⟩
      exact hl
  · intro h
    apply List.mem_iff_get?.mpr
    exact ⟨j, by rw [List.get?_eq_getElem?, List.getElem?_enum, h]; rfl⟩

theorem processAndTrackGo_success_data {β γ : Type} (f : β → Nat → Nat → Except String γ)
    (batch : β) (batchIndex : Nat) :
    ∀ (remaining retryCount : Nat),
      (processAndTrackGo f batch batchIndex retryCount remaining).success = true →
      (processAndTrackGo f batch batchIndex retryCount remaining).data.isSome = true := by
  intro remaining
  induction remaining with
  | zero =>
    intro rc h
    simp only [processAndTrackGo] at h ⊢
    revert h
    cases f batch batchIndex rc <;> intro h <;> simp_all
  | succ rem ih =>
    intro rc h
    simp only [processAndTrackGo] at h ⊢
    revert h
    cases f batch batchIndex rc with
    | error e => intro h; exact ih (rc + 1) h
    | ok r => intro h; simp

theorem schedulerResults_length {β γ : Type} (f : β → Nat → Nat → Except String γ)
    (batches : List β) (maxRetries : Nat) :
    (schedulerResults f batches maxRetries).length = batches.length := by
  unfold schedulerResults
  rw [List.length_map, List.enum_length]

theorem schedulerResults_getElem? {β γ : Type} (f : β → Nat → Nat → Except String γ)
    (batches : List β) (maxRetries j : Nat) :
    (schedulerResults f batches maxRetries)[j]?
      = (batches[j]?).map (fun b => processAndTrack f b j maxRetries 0) := by
  unfold schedulerResults
  rw [List.getElem?_map, List.getElem?_enum]
  cases batches[j]? <;> rfl

theorem runInOrder_length {β γ : Type} (f : β → Nat → Nat → Except String γ)
    (maxRetries : Nat) :
    ∀ (order : List (Nat × β)) (slots : List (Option (BatchResult γ))),
      (order.foldl
        (fun slots p => slots.set p.1 (some (processAndTrack f p.2 p.1 maxRetries 0)))
        slots).length = slots.length := by
  intro order
  induction order with
  | nil => intro slots; rfl
  | cons p rest ih =>
    intro slots
    rw [List.foldl_cons, ih, List.length_set]

theorem runInOrder_untouched {β γ : Type} (f : β → Nat → Nat → Except String γ)
    (maxRetries : Nat) {j : Nat} :
    ∀ (order : List (Nat × β)) (slots : List (Option (BatchResult γ))),
      (∀ p ∈ order, p.1 ≠ j) →
      (order.foldl
        (fun slots p => slots.set p.1 (some (processAndTrack f p.2 p.1 maxRetries 0)))
        slots)[j]? = slots[j]? := by
  intro order
  induction order with
  | nil => intro slots _; rfl
  | cons p rest ih =>
    intro slots hne
    rw [List.foldl_cons, ih _ (fun q hq => hne q (List.mem_cons_of_mem p hq)),
      List.getElem?_set_ne (hne p (List.mem_cons_self p rest))]

theorem runInOrder_written {β γ : Type} (f : β → Nat → Nat → Except String γ)
    (maxRetries : Nat) {j : Nat} {b : β} :
    ∀ (order : List (Nat × β)) (slots : List (Option (BatchResult γ))),
      (order.map Prod.fst).Nodup → (j, b) ∈ order → j < slots.length →
      (order.foldl
        (fun slots p => slots.set p.1 (some (processAndTrack f p.2 p.1 maxRetries 0)))
        slots)[j]? = some (some (processAndTrack f b j maxRetries 0)) := by
  intro order
  induction order with
  | nil => intro slots _ hmem; simp at hmem
  | cons p rest ih =>
    intro slots hnd hmem hj
    rw [List.map_cons, List.nodup_cons] at hnd
    by_cases hpj : p.1 = j
    · have hpb : p = (j, b) := by
        rcases List.mem_cons.mp hmem with h | h
        · exact h.symm
        · exact absurd (hpj ▸ List.mem_map_of_mem Prod.fst h) hnd.1
      subst hpb
      rw [List.foldl_cons]
      rw [runInOrder_untouched f maxRetries rest _ ?_]
      · exact List.getElem?_set_self hj
      · intro q hq
        intro hqj
        have hmm := List.mem_map_of_mem Prod.fst hq
        rw [hqj] at hmm
        exact hnd.1 hmm
    · have hrest : (j, b) ∈ rest := by
        rcases List.mem_cons.mp hmem with h | h
        · exact absurd (congrArg Prod.fst h.symm) hpj
        · exact h
      rw [List.foldl_cons]
      exact ih _ hnd.2 hrest (by rw [List.length_set]; exact hj)

/-- The pre-sized, index-addressed results array is independent of the order
in which batch executions complete: every completion order that is a
permutation of the batches fills the array with exactly the per-index
outcomes. -/
theorem runInOrder_eq_schedulerResults {β γ : Type} (f : β → Nat → Nat → Except String γ)
    (batches : List β) (maxRetries : Nat) (order : List (Nat × β))
    (hperm : order.Perm batches.enum) :
    runInOrder f maxRetries order batches.length
      = (schedulerResults f batches maxRetries).map some := by
  have hnd : (order.map Prod.fst).Nodup := by
    have : (order.map Prod.fst).Perm (batches.enum.map Prod.fst) := hperm.map Prod.fst
    rw [this.nodup_iff, List.enum_map_fst]
    exact List.nodup_range batches.length
  apply List.ext_get?
  intro j
  rw [List.get?_eq_getElem?, List.get?_eq_getElem?]
  by_cases hj : j < batches.length
  · obtain ⟨b, hb⟩ : ∃ b, batches[j]? = some b := by
      cases hb : batches[j]? with
      | none => rw [List.getElem?_eq_none_iff] at hb; omega
      | some b => exact ⟨b, rfl⟩
    have hmem : (j, b) ∈ order := hperm.mem_iff.mpr (mem_enum_iff_getElem?.mpr hb)
    unfold runInOrder
    rw [runInOrder_written f maxRetries order _ hnd hmem (by rw [List.length_replicate]; exact hj)]
    rw [List.getElem?_map, schedulerResults_getElem?, hb]
    rfl
  · have h1 : (runInOrder f maxRetries order batches.length)[j]? = none := by
      rw [List.getElem?_eq_none_iff]
      unfold runInOrder
      rw [runInOrder_length, List.length_replicate]
      omega
    have h2 : ((schedulerResults f batches maxRetries).map some)[j]? = none := by
      rw [List.getElem?_eq_none_iff, List.length_map, schedulerResults_length]
      omega
    rw [h1, h2]

/-! ## Lemmas about the filter flow -/

theorem filterByIndices_sublist {T : Type} (l : List T) (idxs : List Int) :
    (filterByIndices l idxs).Sublist l := by
  unfold filterByIndices
  have h := ((List.filter_sublist (p := fun p => idxs.contains ((p.1 : Int)))
    (l := l.enum))).map Prod.snd
  rw [List.enum_map_snd] at h
  exact h

theorem mem_filterByIndices {T : Type} (l : List T) (idxs : List Int) (j : Nat)
    (hj : j < l.length) (hin : ((j : Nat) : Int) ∈ idxs) :
    l.get ⟨j, hj⟩ ∈ filterByIndices l idxs := by
  unfold filterByIndices
  apply List.mem_map_of_mem (f := fun p => p.2) (a := ((j, l.get ⟨j, hj⟩) : Nat × T))
  apply List.mem_filter.mpr
  constructor
  · exact mem_enum_iff_getElem?.mpr (by rw [List.getElem?_eq_getElem hj]; rfl)
  · simpa using hin

/-- `filterGetEffectiveOptions` only returns options that pass its own
validations. -/
theorem filterGetEffectiveOptions_ok_pos (config : GlobalConfig)
    (options : Option FilterOptions) (eff : EffectiveOptions)
    (h : filterGetEffectiveOptions config options = .ok eff) :
    0 < eff.maxItemsPerBatch ∧ 0 < eff.maxConcurrentBatches ∧ 0 ≤ eff.delayBetweenStartsMs := by
  unfold filterGetEffectiveOptions at h
  dsimp only at h
  split_ifs at h with h1 h2 h3
  injection h with h
  subst h
  omega

/-! ## Lemmas about the find flow -/

theorem findDecision_some_mem {T : Type} [DecidableEq T]
    (provider : List T → Except String Int) (batch : List (IndexedItem T)) (oi : Nat)
    (h : findDecision provider batch = .ok (some oi)) :
    oi ∈ batch.map (fun p => p.originalIndex) := by
  unfold findDecision at h
  dsimp only at h
  revert h
  cases findSingleBatch (batch.map (fun p => p.item)) provider with
  | error e => intro h; exact absurd h (by simp)
  | ok o =>
    cases o with
    | none => intro h; exact absurd h (by simp)
    | some foundItem =>
      intro h
      dsimp only at h
      cases hidx : (batch.map (fun p => p.item)).findIdx? (fun item => item = foundItem) with
      | none => rw [hidx] at h; exact absurd h (by simp)
      | some indexInBatch =>
        rw [hidx] at h
        simp only [Except.ok.injEq, Option.some.injEq] at h
        subst h
        have hlt : indexInBatch < (batch.map (fun p => p.item)).length :=
          (List.findIdx?_eq_some_iff_findIdx_eq.mp hidx).1
        rw [List.length_map] at hlt
        have hlt' : indexInBatch < (batch.map (fun p => p.originalIndex)).length := by
          rw [List.length_map]; exact hlt
        rw [List.getD_eq_getElem?_getD, List.getElem?_eq_getElem hlt']
        exact List.getElem_mem hlt'

/-- After a batch has claimed the shared slot, every later event leaves the
shared state untouched: a `start` observes the raised flag or the claimed
slot and skips, and a `complete` cannot re-claim. -/
theorem ustep_claimed {T : Type} [DecidableEq T] (provider : List T → Except String Int)
    (batches : List (List (IndexedItem T))) (s : UState) (e : UEvent)
    (h : s.firstMatchIndex ≠ -1) : ustep provider batches s e = s := by
  cases e with
  | start i =>
    simp only [ustep]
    rw [if_pos (Or.inr h)]
  | complete i =>
    simp only [ustep]
    by_cases ha : s.aborted = true
    · rw [if_pos ha]
    · rw [if_neg ha]
      cases findDecision provider (batches.getD i []) with
      | error e => rfl
      | ok o =>
        cases o with
        | none => rfl
        | some oi => simp only [if_neg h]

theorem foldl_ustep_claimed {T : Type} [DecidableEq T] (provider : List T → Except String Int)
    (batches : List (List (IndexedItem T))) :
    ∀ (es : List UEvent) (s : UState), s.firstMatchIndex ≠ -1 →
      es.foldl (ustep provider batches) s = s := by
  intro es
  induction es with
  | nil => intro s _; rfl
  | cons e rest ih =>
    intro s hs
    rw [List.foldl_cons, ustep_claimed provider batches s e hs, ih s hs]

theorem runU_append_claimed {T : Type} [DecidableEq T] (provider : List T → Except String Int)
    (batches : List (List (IndexedItem T))) (es₁ es₂ : List UEvent)
    (h : (runU provider batches es₁).firstMatchIndex ≠ -1) :
    runU provider batches (es₁ ++ es₂) = runU provider batches es₁ := by
  unfold runU at *
  rw [List.foldl_append]
  exact foldl_ustep_claimed provider batches es₂ _ h

/-- Reachability invariant of the unordered run: a claimed `firstMatchIndex`
is always an original index of some batch element. -/
theorem runU_firstMatchIndex_inv {T : Type} [DecidableEq T]
    (provider : List T → Except String Int) (batches : List (List (IndexedItem T)))
    (N : Nat) (hN : ∀ b ∈ batches, ∀ x ∈ b, x.originalIndex < N) :
    ∀ (es : List UEvent),
      (runU provider batches es).firstMatchIndex = -1
      ∨ (0 ≤ (runU provider batches es).firstMatchIndex
          ∧ (runU provider batches es).firstMatchIndex < (N : Int)) := by
  have step : ∀ (s : UState) (e : UEvent),
      (s.firstMatchIndex = -1 ∨ (0 ≤ s.firstMatchIndex ∧ s.firstMatchIndex < (N : Int))) →
      ((ustep provider batches s e).firstMatchIndex = -1
        ∨ (0 ≤ (ustep provider batches s e).firstMatchIndex
            ∧ (ustep provider batches s e).firstMatchIndex < (N : Int))) := by
    intro s e hs
    cases e with
    | start i =>
      simp only [ustep]
      split_ifs <;> exact hs
    | complete i =>
      simp only [ustep]
      by_cases ha : s.aborted = true
      · rw [if_pos ha]; exact hs
      · rw [if_neg ha]
        cases hd : findDecision provider (batches.getD i []) with
        | error e => exact hs
        | ok o =>
          cases o with
          | none => exact hs
          | some oi =>
            by_cases hf : s.firstMatchIndex = -1
            · dsimp only
              rw [if_pos hf]
              right
              constructor
              · simp
              · simp only
                by_cases hib : i < batches.length
                · have hb : batches.getD i [] ∈ batches := by
                    rw [List.getD_eq_getElem?_getD, List.getElem?_eq_getElem hib]
                    exact List.getElem_mem hib
                  have hmem := findDecision_some_mem provider _ oi hd
                  obtain ⟨x, hx, hxo⟩ := List.mem_map.mp hmem
                  have := hN _ hb x hx
                  omega
                · -- out-of-range completion: the default batch is empty, so no claim
                  have hb : batches.getD i [] = [] := by
                    rw [List.getD_eq_getElem?_getD]
                    rw [List.getElem?_eq_none_iff.mpr (by omega)]
                    rfl
                  rw [hb] at hd
                  have hempty : findDecision provider ([] : List (IndexedItem T)) = .ok none := rfl
                  rw [hempty] at hd
                  simp at hd
            · dsimp only
              rw [if_neg hf]
              exact hs
  intro es
  induction es using List.list_reverse_induction with
  | base => left; rfl
  | ind rest e ih =>
    unfold runU at *
    rw [List.foldl_append]
    exact step _ e ih

/-- The batches built by `find`/`filter` only carry original indices below the
input length. -/
theorem findBatches_originalIndex_lt {T : Type} (items : List T) (bs : Nat) :
    ∀ b ∈ findBatches items bs, ∀ x ∈ b, x.originalIndex < items.length := by
  intro b hb x hx
  unfold findBatches at hb
  by_cases hbs : bs = 0
  · subst hbs
    unfold chunk at hb
    simp at hb
  · have hfl : x ∈ (chunk (items.enum.map (fun p =>
        ({ item := p.2, originalIndex := p.1 } : IndexedItem T))) bs).flatten :=
      List.mem_flatten.mpr ⟨b, hb, hx⟩
    rw [chunk_flatten _ _ (by omega)] at hfl
    obtain ⟨p, hp, hpx⟩ := List.mem_map.mp hfl
    obtain ⟨n, hn⟩ := List.mem_iff_get?.mp hp
    rw [List.get?_eq_getElem?, List.getElem?_enum] at hn
    cases hi : items[n]? with
    | none => rw [hi] at hn; exact absurd hn (by simp)
    | some a =>
      rw [hi] at hn
      have hpa : p = (n, a) := by simpa using hn.symm
      subst hpa
      have hxn : x.originalIndex = n := by rw [← hpx]
      rw [hxn]
      exact (List.getElem?_eq_some_iff.mp hi).1

theorem findSingleBatch_empty {T : Type} (provider : List T → Except String Int) :
    findSingleBatch ([] : List T) provider = .ok none := rfl

/-- `findGetEffectiveOptions` ignores the per-call options entirely: the
defaults (global config or hardcoded) win every merge. -/
theorem findGetEffectiveOptions_ignores_options (config : GlobalConfig)
    (options : Option FindOptions) :
    findGetEffectiveOptions config options = findGetEffectiveOptions config none := rfl

theorem filterMap_data_length {γ : Type} :
    ∀ (l : List (BatchResult γ)), (∀ r ∈ l, r.success = true → r.data.isSome = true) →
      ((l.filter (fun r => r.success)).filterMap (fun r => r.data)).length
        = (l.filter (fun r => r.success)).length := by
  intro l
  induction l with
  | nil => intro _; rfl
  | cons r rest ih =>
    intro h
    by_cases hs : r.success = true
    · rw [List.filter_cons_of_pos hs]
      obtain ⟨d, hd⟩ := Option.isSome_iff_exists.mp (h r (List.mem_cons_self r rest) hs)
      rw [List.filterMap_cons_some hd, List.length_cons, List.length_cons,
        ih (fun x hx => h x (List.mem_cons_of_mem r hx))]
    · rw [List.filter_cons_of_neg hs]
      exact ih (fun x hx => h x (List.mem_cons_of_mem r hx))

/-! ## The claims -/

/-- C1 The spec claims the scheduler "returns exactly one outcome per input
batch ... even when some batches fail after exhausting retries".  The
internal results array does contain one outcome per batch, but the value
`runBatchesInParallel` returns keeps only the successful outcomes: with
batch 0 failing on every attempt, two input batches produce a returned
sequence of length 1. -/
theorem runBatchesInParallel_one_outcome_per_batch_cex :
    runBatchesInParallel taskFailBatch0 [10, 20] 1 0 1 = [20]
    ∧ (runBatchesInParallel taskFailBatch0 [10, 20] 1 0 1).length
        ≠ ([10, 20] : List Nat).length := by
  decide

/-- C1 (amended) The scheduler's internal results array has exactly one
outcome per input batch, stored at the batch's position regardless of the
completion order (any permutation of index-addressed writes yields the same
array); but the returned sequence keeps only the successful outcomes' data,
in batch-position order, so its length is the number of successful batches
rather than the number of input batches. -/
theorem runBatchesInParallel_outcomes {β γ : Type} (f : β → Nat → Nat → Except String γ)
    (batches : List β) (maxConcurrentBatches delayBetweenStartsMs : Int) (maxRetries : Nat) :
    (schedulerResults f batches maxRetries).length = batches.length
    ∧ (∀ order : List (Nat × β), order.Perm batches.enum →
        runInOrder f maxRetries order batches.length
          = (schedulerResults f batches maxRetries).map some)
    ∧ runBatchesInParallel f batches maxConcurrentBatches delayBetweenStartsMs maxRetries
        = ((schedulerResults f batches maxRetries).filter (fun r => r.success)).filterMap
            (fun r => r.data)
    ∧ (runBatchesInParallel f batches maxConcurrentBatches delayBetweenStartsMs maxRetries).length
        = ((schedulerResults f batches maxRetries).filter (fun r => r.success)).length := by
  refine ⟨schedulerResults_length f batches maxRetries,
    fun order hperm => runInOrder_eq_schedulerResults f batches maxRetries order hperm,
    rfl, ?_⟩
  apply filterMap_data_length
  intro r hr hs
  unfold schedulerResults at hr
  obtain ⟨p, _, hpr⟩ := List.mem_map.mp hr
  rw [← hpr] at hs ⊢
  unfold processAndTrack
  exact processAndTrackGo_success_data f p.2 p.1 _ 0 hs

/-- C1 witness: a concrete out-of-order completion writes the same results
array, and the concrete returned sequence is as long as the success count. -/
theorem runBatchesInParallel_outcomes_witness :
    runInOrder taskFailBatch0 1 [(1, 20), (0, 10)] 2
        = (schedulerResults taskFailBatch0 [10, 20] 1).map some
    ∧ (runBatchesInParallel taskFailBatch0 [10, 20] 1 0 1).length
        = ((schedulerResults taskFailBatch0 [10, 20] 1).filter (fun r => r.success)).length := by
  have h := runBatchesInParallel_outcomes taskFailBatch0 [10, 20] 1 0 1
  exact ⟨h.2.1 [(1, 20), (0, 10)] (by decide), h.2.2.2⟩

/-- C2 The spec claims a thrown task error inside a batched filter run is a
recoverable failure that gets retried and, after exhausting retries, recorded
as a failure.  In the code the per-batch function catches the error and
returns `[]`, so the scheduler records an immediate success with no matches —
one single invocation, no retry, no failure record. -/
theorem filter_error_not_retried_cex :
    processAndTrack (fun b _ _ => .ok (filterProcessBatch providerThrow b)) batchTwo 0 3 0
      = { success := true, data := some [], error := none, retries := none }
    ∧ processAndTrackInvocations (fun b _ _ => .ok (filterProcessBatch providerThrow b))
        batchTwo 0 3 0 = 1 := by
  decide

/-- C2 (amended) Errors thrown by the task during a batched filter or find
run are caught inside the per-batch processing function and converted into a
successful no-match outcome (`[]` for filter, `-1` for find) after a single
invocation; the scheduler's retry policy is never triggered by these flows,
and sibling batches are unaffected because each batch's outcome is computed
independently. -/
theorem task_errors_swallowed_not_retried {T : Type} [DecidableEq T]
    (provider : List T → Except String (List Int)) (pfind : List T → Except String Int)
    (batch : List (IndexedItem T)) (i maxRetries : Nat) :
    processAndTrack (fun b _ _ => .ok (filterProcessBatch provider b)) batch i maxRetries 0
      = { success := true, data := some (filterProcessBatch provider batch),
          error := none, retries := none }
    ∧ processAndTrackInvocations (fun b _ _ => .ok (filterProcessBatch provider b))
        batch i maxRetries 0 = 1
    ∧ (∀ e, provider (batch.map (fun p => p.item)) = .error e →
        filterProcessBatch provider batch = [])
    ∧ (∀ e, findSingleBatch (batch.map (fun p => p.item)) pfind = .error e →
        processBatchOrdered pfind batch = -1) := by
  refine ⟨?_, ?_, ?_, ?_⟩
  · unfold processAndTrack
    cases maxRetries <;> rfl
  · unfold processAndTrackInvocations
    cases maxRetries <;> rfl
  · intro e he
    unfold filterProcessBatch filterSingleBatch
    rw [he]
  · intro e he
    unfold processBatchOrdered findDecision
    dsimp only
    rw [he]

/-- C2 witness: the concrete throwing provider yields a no-match success. -/
theorem task_errors_swallowed_not_retried_witness :
    filterProcessBatch providerThrow batchTwo = []
    ∧ processBatchOrdered finderThrow batchTwo = -1
    ∧ processAndTrackInvocations (fun b _ _ => .ok (filterProcessBatch providerThrow b))
        batchTwo 0 3 0 = 1 := by
  have h := task_errors_swallowed_not_retried providerThrow finderThrow batchTwo 0 3
  exact ⟨h.2.2.1 "LLM down" rfl, h.2.2.2 "LLM down" rfl, h.2.1⟩

/-- C8 A task that fails on every invocation is invoked exactly
`maxRetries + 1` times; the batch's outcome records the last error and the
retry count; and every batch's slot in the results array holds that batch's
own outcome, independent of the others. -/
theorem retry_exhaustion {β γ : Type} (f : β → Nat → Nat → Except String γ)
    (batches : List β) (batch : β) (i maxRetries : Nat)
    (hfail : ∀ attempt, ∃ e, f batch i attempt = .error e) :
    processAndTrackInvocations f batch i maxRetries 0 = maxRetries + 1
    ∧ (∃ e, f batch i maxRetries = .error e
        ∧ processAndTrack f batch i maxRetries 0
            = { success := false, data := none, error := some e, retries := some maxRetries })
    ∧ (∀ j, (schedulerResults f batches maxRetries)[j]?
          = (batches[j]?).map (fun b => processAndTrack f b j maxRetries 0)) := by
  have main : ∀ (rem rc : Nat),
      processAndTrackGoInvocations f batch i rc rem = rem + 1
      ∧ ∃ e, f batch i (rc + rem) = .error e
          ∧ processAndTrackGo f batch i rc rem
              = { success := false, data := none, error := some e, retries := some (rc + rem) } := by
    intro rem
    induction rem with
    | zero =>
      intro rc
      obtain ⟨e, he⟩ := hfail rc
      refine ⟨rfl, e, he, ?_⟩
      simp only [processAndTrackGo]
      rw [he]
      rfl
    | succ rem ih =>
      intro rc
      obtain ⟨e, he⟩ := hfail rc
      obtain ⟨ih1, e', he', ihres⟩ := ih (rc + 1)
      constructor
      · simp only [processAndTrackGoInvocations]
        rw [he]
        dsimp only
        rw [ih1]
        omega
      · refine ⟨e', ?_, ?_⟩
        · have hadd : rc + (rem + 1) = (rc + 1) + rem := by omega
          rw [hadd]
          exact he'
        · simp only [processAndTrackGo]
          rw [he]
          dsimp only
          rw [ihres]
          have hadd : (rc + 1) + rem = rc + (rem + 1) := by omega
          rw [hadd]
  obtain ⟨h1, e, he, hres⟩ := main maxRetries 0
  refine ⟨?_, ⟨e, by simpa using he, ?_⟩, fun j => schedulerResults_getElem? f batches maxRetries j⟩
  · unfold processAndTrackInvocations
    simpa using h1
  · unfold processAndTrack
    simp only [Nat.sub_zero]
    rw [hres]
    simp

/-- C8 witness: with `maxRetries = 3` a concrete always-failing task is
invoked 4 times and recorded as a failure with 3 retries. -/
theorem retry_exhaustion_witness :
    processAndTrackInvocations taskAlwaysFail 10 0 3 0 = 3 + 1
    ∧ processAndTrack taskAlwaysFail 10 0 3 0
        = { success := false, data := none, error := some "boom", retries := some 3 } := by
  have h := retry_exhaustion taskAlwaysFail [10, 20] 10 0 3 (fun _ => ⟨"boom", rfl⟩)
  exact ⟨h.1, rfl⟩

/-- C9 The spec claims `chunk(sequence, size)` fails with `InvalidArgument`
when `size ≤ 0`.  The source performs no validation: on a nonempty array with
`size = 0` the loop never exits (no amount of fuel makes it return), so no
error is ever raised. -/
theorem chunk_invalid_size_cex : chunkNeverTerminates ([0] : List Int) 0 := by
  intro fuel
  exact chunkLoop_diverges [0] 0 (by omega) (by simp) fuel 0 le_rfl []

/-- C9 (amended) `chunk` itself performs no size validation: for `size ≤ 0`
it does not fail with an error — on a nonempty array the loop diverges
(size validation is done by the callers' option resolution instead) — while
for `size > 0` it returns order-preserving contiguous batches whose
concatenation is the original array, each of length at most `size` (so only
the last may be shorter). -/
theorem chunk_contract (T : Type) (array : List T) (chunkSize : Int) :
    (chunkSize ≤ 0 → array ≠ [] → chunkNeverTerminates array chunkSize)
    ∧ (0 < chunkSize →
        chunkLoop array chunkSize 0 [] (array.length + 1) = some (chunk array chunkSize.toNat)
        ∧ (chunk array chunkSize.toNat).flatten = array
        ∧ ∀ b ∈ chunk array chunkSize.toNat, b.length ≤ chunkSize.toNat) := by
  constructor
  · intro hs hne fuel
    exact chunkLoop_diverges array chunkSize hs hne fuel 0 le_rfl []
  · intro hs
    have hsn : 0 < chunkSize.toNat := by omega
    refine ⟨?_, chunk_flatten array chunkSize.toNat hsn,
      fun b hb => chunk_mem_length_le array chunkSize.toNat b hb⟩
    have h := chunkLoop_agrees array chunkSize.toNat hsn
    rwa [Int.toNat_of_nonneg (by omega)] at h

/-- C9 witness: a positive size splits and reassembles; a non-positive size
never returns. -/
theorem chunk_contract_witness :
    (chunk ([1, 2, 3] : List Nat) 2).flatten = [1, 2, 3]
    ∧ chunkLoop ([5] : List Nat) (-1) 0 [] 7 = none := by
  refine ⟨((chunk_contract Nat [1, 2, 3] 2).2 (by omega)).2.1, ?_⟩
  exact (chunk_contract Nat [5] (-1)).1 (by omega) (by simp) 7

/-- C7 For every input, options, config and task behaviour, the sequence
`filter` returns is a sublist of the input: only items of the input, in
ascending original-index order, with no duplicate positions introduced
(the final step is a positional filter of the original array). -/
theorem filter_result_sublist {T : Type} [DecidableEq T] (unfiltered : List T)
    (optProvider configProvider : Option (List T → Except String (List Int)))
    (options : Option FilterOptions) (config : GlobalConfig) (out : List T)
    (h : filter unfiltered optProvider configProvider options config = .ok out) :
    out.Sublist unfiltered := by
  unfold filter at h
  revert h
  cases filterGetEffectiveOptions config options with
  | error e => intro h; exact absurd h (by simp)
  | ok eff =>
    cases optProvider <|> configProvider with
    | none => intro h; exact absurd h (by simp)
    | some provider =>
      dsimp only
      split_ifs with hsb
      · unfold filterSingleBatch
        cases provider unfiltered with
        | error e => intro h; exact absurd h (by simp)
        | ok idxs =>
          intro h
          injection h with h
          exact h ▸ filterByIndices_sublist unfiltered idxs
      · intro h
        injection h with h
        exact h ▸ filterByIndices_sublist unfiltered _

/-- C7 witness: a concrete batched run returns a sublist. -/
theorem filter_result_sublist_witness :
    filter [10, 20, 30] (some providerIdx0) none
        (some { batching := some { maxItemsPerBatch := some 2 }, parallelism := none })
        emptyConfig
      = .ok [10, 30]
    ∧ ([10, 30] : List Nat).Sublist [10, 20, 30] := by
  refine ⟨rfl, ?_⟩
  exact filter_result_sublist [10, 20, 30] (some providerIdx0) none
    (some { batching := some { maxItemsPerBatch := some 2 }, parallelism := none })
    emptyConfig [10, 30] rfl

/-- C10 The batched filter re-identifies matched items by equality membership
against the task's returned items rather than by the reported local indices:
if a batch holds the identical value at two positions and the task reports
one of them, both original indices end up in the result. -/
theorem filter_rematch_by_equality {T : Type} [DecidableEq T]
    (provider : List T → Except String (List Int)) (batch : List (IndexedItem T))
    (p q : Nat) (hp : p < batch.length) (hq : q < batch.length) (hpq : p ≠ q)
    (heq : (batch.get ⟨p, hp⟩).item = (batch.get ⟨q, hq⟩).item)
    (idxs : List Int)
    (hprov : provider (batch.map (fun x => x.item)) = .ok idxs)
    (hrep : ((p : Nat) : Int) ∈ idxs) :
    (batch.get ⟨p, hp⟩).originalIndex ∈ filterProcessBatch provider batch
    ∧ (batch.get ⟨q, hq⟩).originalIndex ∈ filterProcessBatch provider batch := by
  unfold filterProcessBatch filterSingleBatch
  rw [hprov]
  dsimp only
  have hlen : p < (batch.map (fun x => x.item)).length := by
    rw [List.length_map]; exact hp
  have hmemP : (batch.get ⟨p, hp⟩).item
      ∈ filterByIndices (batch.map (fun x => x.item)) idxs := by
    have h := mem_filterByIndices (batch.map (fun x => x.item)) idxs p hlen hrep
    rwa [List.get_map] at h
  have hmemQ : (batch.get ⟨q, hq⟩).item
      ∈ filterByIndices (batch.map (fun x => x.item)) idxs := heq ▸ hmemP
  constructor
  · exact List.mem_map_of_mem _
      (List.mem_filter.mpr ⟨List.get_mem batch p hp, by simpa using hmemP⟩)
  · exact List.mem_map_of_mem _
      (List.mem_filter.mpr ⟨List.get_mem batch q hq, by simpa using hmemQ⟩)

/-- C10 witness: with the identical value at both positions of a batch and
the task reporting only local index 0, both original indices 0 and 1 are in
the outcome. -/
theorem filter_rematch_by_equality_witness :
    (0 : Nat) ∈ filterProcessBatch providerIdx0 batchDup
    ∧ (1 : Nat) ∈ filterProcessBatch providerIdx0 batchDup := by
  have h := filter_rematch_by_equality providerIdx0 batchDup 0 1
    (by decide) (by decide) (by decide) (by decide) [0] rfl (by decide)
  exact ⟨h.1, h.2⟩

/-- C4 The spec claims the empty input yields zero task invocations for both
filter and find.  `find` does guard the empty input, but `filter` has no
such guard: the empty input takes the single-batch path and the provider is
invoked once (on an empty item list), even though the returned sequence is
still empty. -/
theorem filter_empty_input_cex :
    filter ([] : List Nat) (some providerIdx0) none none emptyConfig = .ok []
    ∧ filterInvocationCount ([] : List Nat) (some providerIdx0) none none emptyConfig = 1
    ∧ filterInvocationCount ([] : List Nat) (some providerIdx0) none none emptyConfig ≠ 0 :=
  ⟨rfl, rfl, by decide⟩

/-- C4 (amended) On the empty input, `find` returns "not found" with zero
provider invocations, and `filter` returns the empty sequence — but through
the single-batch path with exactly one provider invocation. -/
theorem empty_input_behavior {T : Type} [DecidableEq T]
    (provider : List T → Except String (List Int))
    (options : Option FilterOptions) (config : GlobalConfig)
    (eff : EffectiveOptions) (idxs : List Int)
    (hres : filterGetEffectiveOptions config options = .ok eff)
    (hprov : provider [] = .ok idxs)
    (fp fp' : Option (List T → Except String Int)) (foptions : Option FindOptions)
    (config' : GlobalConfig) (events : List UEvent) :
    filter ([] : List T) (some provider) none options config = .ok []
    ∧ filterInvocationCount ([] : List T) (some provider) none options config = 1
    ∧ find ([] : List T) fp fp' foptions config' events = .ok none
    ∧ findInvocationCount ([] : List T) fp fp' foptions config' events = 0 := by
  have hpos := filterGetEffectiveOptions_ok_pos config options eff hres
  have horelse : (some provider <|> (none : Option (List T → Except String (List Int))))
      = some provider := rfl
  refine ⟨?_, ?_, rfl, rfl⟩
  · unfold filter
    rw [hres, horelse]
    dsimp only
    rw [if_pos (Or.inr (by simp; omega))]
    unfold filterSingleBatch
    rw [hprov]
    rfl
  · unfold filterInvocationCount
    rw [hres, horelse]
    dsimp only
    rw [if_pos (Or.inr (by simp; omega))]

/-- C4 witness: concrete empty-input runs. -/
theorem empty_input_behavior_witness :
    filter ([] : List Nat) (some providerIdx0) none none emptyConfig = .ok []
    ∧ filterInvocationCount ([] : List Nat) (some providerIdx0) none none emptyConfig = 1
    ∧ find ([] : List Nat) none none none emptyConfig [] = .ok none
    ∧ findInvocationCount ([] : List Nat) none none none emptyConfig [] = 0 := by
  have h := empty_input_behavior providerIdx0 none emptyConfig
    { maxItemsPerBatch := 50, maxConcurrentBatches := 5, delayBetweenStartsMs := 0 }
    [0] rfl rfl none none none emptyConfig []
  exact ⟨h.1, h.2.1, h.2.2.1, h.2.2.2⟩

/-- C3 The spec (and the option's own documentation) says `find` with
`strategy = ordered` returns the match with the minimum original index
irrespective of completion order.  The code's option resolution calls
`deepMerge(optionsDerived, defaults)` with `defaults` as the winning source,
so the requested strategy is discarded and the effective strategy is always
"unordered": on two batches that both match, with batch 1 completing first,
`find` returns the item at index 1 instead of the minimum index 0.  The
ordered branch itself (dead code on this path) would return the minimum. -/
theorem find_ordered_strategy_ignored :
    findGetEffectiveOptions configBatch1 (some optionsOrdered)
      = .ok { maxItemsPerBatch := 1, maxConcurrentBatches := 2,
              delayBetweenStartsMs := 0, strategy := "unordered" }
    ∧ find [10, 20] (some finderIdx0) none (some optionsOrdered) configBatch1 scheduleB1First
      = .ok (some 20)
    ∧ findOrderedRun finderIdx0 [10, 20] (findBatches [10, 20] 1) 2 0 = some 10 :=
  ⟨rfl, rfl, rfl⟩

/-- C6 Once a batch of the unordered strategy claims the shared first-match
slot (raising the abort flag), every later event leaves the shared state
unchanged: no further provider invocation is dispatched, the claimed index
survives, and the final answer is the item at the claimed original index
(which is always in range). -/
theorem find_unordered_cancellation {T : Type} [DecidableEq T]
    (provider : List T → Except String Int) (items : List T) (batchSize : Nat)
    (es₁ es₂ : List UEvent)
    (hclaim : (runU provider (findBatches items batchSize) es₁).firstMatchIndex ≠ -1) :
    (runU provider (findBatches items batchSize) (es₁ ++ es₂)).invocations
        = (runU provider (findBatches items batchSize) es₁).invocations
    ∧ (runU provider (findBatches items batchSize) (es₁ ++ es₂)).firstMatchIndex
        = (runU provider (findBatches items batchSize) es₁).firstMatchIndex
    ∧ findUnorderedRun provider items (findBatches items batchSize) (es₁ ++ es₂)
        = items.get? ((runU provider (findBatches items batchSize) es₁).firstMatchIndex).toNat
    ∧ (items.get? ((runU provider (findBatches items batchSize) es₁).firstMatchIndex).toNat).isSome
        = true := by
  have happ := runU_append_claimed provider (findBatches items batchSize) es₁ es₂ hclaim
  refine ⟨by rw [happ], by rw [happ], ?_, ?_⟩
  · unfold findUnorderedRun
    dsimp only
    rw [happ, if_pos hclaim]
  · rcases runU_firstMatchIndex_inv provider (findBatches items batchSize) items.length
      (findBatches_originalIndex_lt items batchSize) es₁ with h | ⟨h0, hN⟩
    · exact absurd h hclaim
    · rw [List.get?_eq_getElem?, List.getElem?_eq_getElem (by omega)]
      rfl

/-- C6 witness: batch 0 claims the match; the later events for batch 1 do
not invoke the provider and the answer is the claimed item. -/
theorem find_unordered_cancellation_witness :
    (runU finderIdx0 (findBatches [10, 20] 1)
        ([UEvent.start 0, UEvent.complete 0] ++ [UEvent.start 1, UEvent.complete 1])).invocations
      = (runU finderIdx0 (findBatches [10, 20] 1)
          [UEvent.start 0, UEvent.complete 0]).invocations
    ∧ findUnorderedRun finderIdx0 [10, 20] (findBatches [10, 20] 1)
        ([UEvent.start 0, UEvent.complete 0] ++ [UEvent.start 1, UEvent.complete 1])
      = ([10, 20] : List Nat).get? ((runU finderIdx0 (findBatches [10, 20] 1)
          [UEvent.start 0, UEvent.complete 0]).firstMatchIndex).toNat := by
  have h := find_unordered_cancellation finderIdx0 [10, 20] 1
    [UEvent.start 0, UEvent.complete 0] [UEvent.start 1, UEvent.complete 1] (by decide)
  exact ⟨h.1, h.2.2.1⟩

/-- C5 The spec claims that passing 0 for batch size or concurrency raises a
configuration error rather than being silently replaced by a default.  In
`find`, the option resolution selects per-call values with the truthiness
operator (an explicit 0 already falls back) and then lets the defaults win
the merge, so a 0 batch size and a 0 concurrency limit are both silently
replaced by the 50/5 defaults and no error is raised. -/
theorem find_validation_cex :
    findGetEffectiveOptions emptyConfig
        (some { batching := some { maxItemsPerBatch := some 0 },
                parallelism := none, strategy := none })
      = .ok { maxItemsPerBatch := 50, maxConcurrentBatches := 5,
              delayBetweenStartsMs := 0, strategy := "unordered" }
    ∧ findGetEffectiveOptions emptyConfig
        (some { batching := none,
                parallelism := some { maxConcurrentBatches := some 0,
                                      delayBetweenStartsMs := none },
                strategy := none })
      = .ok { maxItemsPerBatch := 50, maxConcurrentBatches := 5,
              delayBetweenStartsMs := 0, strategy := "unordered" } :=
  ⟨rfl, rfl⟩

/-- C5 (amended) `filter`'s option resolution keeps the caller's values
(nullish coalescing, so an explicit 0 survives) and raises synchronously on
batch size ≤ 0, concurrency ≤ 0 and negative delay, before any batch
executes; a missing provider raises in both `filter` and `find` with zero
task invocations.  `find`'s resolution, however, discards the per-call
options entirely (the defaults win its merge), so 0, negative values or any
strategy string passed per call never raise — `find` raises only when the
global-config/default values themselves are invalid. -/
theorem option_validation {T : Type} [DecidableEq T]
    (config : GlobalConfig) (options : Option FindOptions) (v c d : Int)
    (l : List T) (t : T) (ts : List T)
    (foptions : Option FindOptions) (fconfig : GlobalConfig) (feff : EffectiveFindOptions)
    (options' : Option FilterOptions) (config' : GlobalConfig) (eff' : EffectiveOptions)
    (events : List UEvent)
    (hv : v ≤ 0) (hc : c ≤ 0) (hd : d < 0)
    (hbdef : 0 < (config.batching.bind (fun b => b.maxItemsPerBatch)).getD 50)
    (hcdef : 0 < (config.parallelism.bind (fun p => p.maxConcurrentBatches)).getD 5)
    (hres : filterGetEffectiveOptions config' options' = .ok eff')
    (hfres : findGetEffectiveOptions fconfig foptions = .ok feff) :
    filterGetEffectiveOptions config
        (some { batching := some { maxItemsPerBatch := some v }, parallelism := none })
      = .error "maxItemsPerBatch must be greater than 0"
    ∧ filterGetEffectiveOptions config
        (some { batching := none,
                parallelism := some { maxConcurrentBatches := some c,
                                      delayBetweenStartsMs := none } })
      = .error "maxConcurrentBatches must be greater than 0"
    ∧ filterGetEffectiveOptions config
        (some { batching := none,
                parallelism := some { maxConcurrentBatches := none,
                                      delayBetweenStartsMs := some d } })
      = .error "delayBetweenStartsMs must be non-negative"
    ∧ filter l none none options' config'
      = .error "Provider is required. Set it globally via llmfuncsConfig or pass it in options."
    ∧ filterInvocationCount l none none options' config' = 0
    ∧ find (t :: ts) none none foptions fconfig events
      = .error "Provider is required. Set it globally via llmfuncsConfig or pass it in options."
    ∧ findInvocationCount (t :: ts) none none foptions fconfig events = 0
    ∧ findGetEffectiveOptions config options = findGetEffectiveOptions config none := by
  have horelse : ((none : Option (List T → Except String (List Int))) <|> none)
      = (none : Option (List T → Except String (List Int))) := rfl
  have horelsef : ((none : Option (List T → Except String Int)) <|> none)
      = (none : Option (List T → Except String Int)) := rfl
  refine ⟨?_, ?_, ?_, ?_, ?_, ?_, ?_,
    findGetEffectiveOptions_ignores_options config options⟩
  · unfold filterGetEffectiveOptions
    dsimp only
    have hA : ((some ({ maxItemsPerBatch := some v } : BatchingOptions)).isSome = true
        ∨ (none : Option ParallelismOptions).isSome = true) := by simp
    simp only [if_pos hA, Option.getD_some]
    rw [if_pos hv]
  · unfold filterGetEffectiveOptions
    dsimp only
    have hA : ((none : Option BatchingOptions).isSome = true
        ∨ (some ({ maxConcurrentBatches := some c, delayBetweenStartsMs := none }
            : ParallelismOptions)).isSome = true) := by simp
    simp only [if_pos hA, Option.getD_some]
    rw [if_neg (by omega), if_pos hc]
  · unfold filterGetEffectiveOptions
    dsimp only
    have hA : ((none : Option BatchingOptions).isSome = true
        ∨ (some ({ maxConcurrentBatches := none, delayBetweenStartsMs := some d }
            : ParallelismOptions)).isSome = true) := by simp
    simp only [if_pos hA, Option.getD_some, Option.getD_none]
    rw [if_neg (by omega), if_neg (by omega), if_pos hd]
  · unfold filter
    rw [hres, horelse]
  · unfold filterInvocationCount
    rw [hres, horelse]
  · unfold find
    rw [if_neg (by simp), hfres, horelsef]
  · unfold findInvocationCount
    rw [if_neg (by simp), hfres, horelsef]

/-- C5 witness: concrete instantiations — filter raises on a 0 batch size,
a 0 concurrency limit and a negative delay, the missing provider raises with
zero invocations, and find discards the per-call ordered strategy. -/
theorem option_validation_witness :
    filterGetEffectiveOptions emptyConfig
        (some { batching := some { maxItemsPerBatch := some 0 }, parallelism := none })
      = .error "maxItemsPerBatch must be greater than 0"
    ∧ filterGetEffectiveOptions emptyConfig
        (some { batching := none,
                parallelism := some { maxConcurrentBatches := some 0,
                                      delayBetweenStartsMs := none } })
      = .error "maxConcurrentBatches must be greater than 0"
    ∧ filterGetEffectiveOptions emptyConfig
        (some { batching := none,
                parallelism := some { maxConcurrentBatches := none,
                                      delayBetweenStartsMs := some (-1) } })
      = .error "delayBetweenStartsMs must be non-negative"
    ∧ filter ([1] : List Nat) none none none emptyConfig
      = .error "Provider is required. Set it globally via llmfuncsConfig or pass it in options."
    ∧ filterInvocationCount ([1] : List Nat) none none none emptyConfig = 0
    ∧ find ([1] : List Nat) none none none emptyConfig []
      = .error "Provider is required. Set it globally via llmfuncsConfig or pass it in options."
    ∧ findInvocationCount ([1] : List Nat) none none none emptyConfig [] = 0
    ∧ findGetEffectiveOptions emptyConfig (some optionsOrdered)
      = findGetEffectiveOptions emptyConfig none :=
  option_validation emptyConfig (some optionsOrdered) 0 0 (-1) [1] 1 [] none emptyConfig
    { maxItemsPerBatch := 50, maxConcurrentBatches := 5, delayBetweenStartsMs := 0,
      strategy := "unordered" }
    none emptyConfig
    { maxItemsPerBatch := 50, maxConcurrentBatches := 5, delayBetweenStartsMs := 0 }
    [] (by decide) (by decide) (by decide) (by decide) (by decide) rfl rfl

end LLMFuncs
